import Mathlib

/-!
Verification of the anti-entropy repair subsystem (`src/storage/repair.go`).

Shallow embedding conventions:
* `time.Time` and `time.Duration` are modelled as `Int` (nanoseconds);
  Go's `Time.Truncate` rounds down to a multiple of the duration, which
  for a positive duration is Euclidean division on `Int`.
* The repair-state map `map[time.Time]repairState` is modelled as a
  function `Time → Option RepairState`; Go's comma-ok lookup is the
  `Option`, and Go's plain indexing (zero value on a missing key) is
  `lookupOrZero`.
* External collaborators (admin client, peer session, metadata comparer,
  namespaces) are oracles supplied as parameters: a Boolean per fallible
  call and an abstract comparison result, exactly at the interface
  boundary the source consumes.
* Loops with no early exit are folds over the iterated list.
-/

namespace M3Repair

/-- Instants and durations in nanoseconds, as in Go `time`. -/
abbrev Time := Int

/-- Go `time.Time.Truncate`: rounds `t` down to a multiple of `d` since the
zero time; returns `t` unchanged when `d ≤ 0`. -/
def truncate (t d : Time) : Time :=
  if d ≤ 0 then t else d * (t / d)

/-! ### Data model of the ledger (`repairStatus`, `repairState`, `repairStates`) -/

/-- The `repairStatus` enum of `repair.go` (`repairNotStarted` iota). -/
inductive RepairStatus
  | notStarted
  | success
  | failed
deriving DecidableEq, Repr

/-- The `repairState` struct: `Status` and `NumFailures`. -/
structure RepairState where
  status : RepairStatus
  numFailures : Int
deriving DecidableEq, Repr

/-- Go zero value of `repairState` (status iota 0, failures 0). -/
def RepairState.zero : RepairState := ⟨.notStarted, 0⟩

/-- The `repairStates map[time.Time]repairState` ledger. -/
abbrev Ledger := Time → Option RepairState

/-- Go map indexing without comma-ok: zero value when the key is absent. -/
def lookupOrZero (l : Ledger) (t : Time) : RepairState :=
  (l t).getD RepairState.zero

/-- Go map assignment `r.repairStates[t] = s`. -/
def updateLedger (l : Ledger) (t : Time) (s : RepairState) : Ledger :=
  fun u => if u = t then some s else l u

/-! ### Shard repairer (`shardRepairer.Repair`) -/

/-- The `repair.MetadataComparisonResult` consumed by the recording step;
the comparer producing it is an external collaborator, so only its
recorded counters are modelled. -/
structure MetadataComparisonResult where
  numSeries : Int
  numBlocks : Int
  sizeDiffSeries : Int
  sizeDiffBlocks : Int
  checksumDiffSeries : Int
  checksumDiffBlocks : Int
deriving DecidableEq, Repr

/-- Go zero value `repair.MetadataComparisonResult{}` returned on error. -/
def MetadataComparisonResult.empty : MetadataComparisonResult := ⟨0, 0, 0, 0, 0, 0⟩

/-- The errors `shardRepairer.Repair` can return, by originating call. -/
inductive ShardRepairErr
  | sessionUnavailable
  | peerFetchFailed
  | addPeerFailed
deriving DecidableEq, Repr

/-- Oracle for the external calls one `shardRepairer.Repair` invocation
makes: whether `DefaultAdminSession`, `FetchBlocksMetadata` (local),
`FetchBlocksMetadataFromPeers` and `AddPeerMetadata` fail, and the result
`Compare()` would produce. -/
structure ShardEnv where
  sessionErr : Bool
  localFetchErr : Bool
  peerFetchErr : Bool
  addPeerErr : Bool
  compareResult : MetadataComparisonResult
deriving DecidableEq, Repr

/-- Return value of `shardRepairer.Repair` plus whether `recordFn` ran. -/
structure ShardRepairReturn where
  result : MetadataComparisonResult
  error : Option ShardRepairErr
  recorded : Bool
deriving DecidableEq, Repr

/-- `shardRepairer.Repair` (repair.go lines 95-144).  The session error and
both peer-side errors abort with the zero result before `recordFn`; the
local fetch error is discarded by the source (`localMetadata, _ := ...`),
so it never aborts. -/
def shardRepair (env : ShardEnv) : ShardRepairReturn :=
  if env.sessionErr then ⟨.empty, some .sessionUnavailable, false⟩
  else if env.peerFetchErr then ⟨.empty, some .peerFetchFailed, false⟩
  else if env.addPeerErr then ⟨.empty, some .addPeerFailed, false⟩
  else ⟨env.compareResult, none, true⟩

/-! ### Candidate timestamps (`repairTimes`, `needsRepair`) -/

/-- `dbRepairer.needsRepair` (repair.go lines 308-314). -/
def needsRepair (repairMaxRetries : Int) (l : Ledger) (t : Time) : Bool :=
  match l t with
  | none => true
  | some s => s.status == .failed && decide (s.numFailures < repairMaxRetries)

/-- The Go loop `for t := end; !t.Before(start); t = t.Add(-blockSize)`,
which steps down from `endT` while `startT ≤ t`.  Faithful for
`0 < blockSize` (the options are validated at construction); for
`blockSize ≤ 0` the Go loop would not terminate, so the model returns
`[]` outside the validated domain. -/
def blockTimesDesc (startT endT blockSize : Int) : List Time :=
  if blockSize ≤ 0 ∨ endT < startT then []
  else (List.range (((endT - startT).toNat / blockSize.toNat) + 1)).map
    (fun k : Nat => endT - blockSize * (k : Int))

/-- Retention options consumed by `repairTimes`. -/
structure RetentionOpts where
  blockSize : Int
  retentionPeriod : Int
  bufferPast : Int
deriving DecidableEq, Repr

/-- `dbRepairer.repairTimes` (repair.go lines 290-306). -/
def repairTimes (rt : RetentionOpts) (repairMaxRetries : Int) (l : Ledger)
    (now : Time) : List Time :=
  let startT := truncate (now - rt.retentionPeriod) rt.blockSize
  let endT := truncate (now - rt.bufferPast - rt.blockSize) rt.blockSize
  (blockTimesDesc startT endT rt.blockSize).filter (needsRepair repairMaxRetries l)

/-! ### One repair pass (`dbRepairer.Repair`, `repairWithTime`) -/

/-- Inputs of one pass: the owned-namespace snapshot, an oracle telling
whether namespace `n`'s `Repair` fails at time `t`, the retention options,
`repairMaxRetries` and the clock reading. -/
structure PassEnv where
  namespaces : List String
  nsFails : String → Time → Bool
  rt : RetentionOpts
  repairMaxRetries : Int
  now : Time

/-- One iteration of the namespace loop in `repairWithTime`: attempt the
namespace (recorded in the first component) and add its detailed error,
carrying the namespace id and timestamp, to the multi-error on failure. -/
def nsStep (fails : String → Time → Bool) (t : Time)
    (acc : List (String × Time) × List (String × Time)) (n : String) :
    List (String × Time) × List (String × Time) :=
  (acc.1 ++ [(n, t)], if fails n t then acc.2 ++ [(n, t)] else acc.2)

/-- `dbRepairer.repairWithTime` (repair.go lines 362-372): loop over every
owned namespace, collect per-namespace errors into a multi-error, and
return `FinalError()` (`none` when no error was added).  The first
component is the trace of attempted `(namespace, time)` pairs. -/
def repairWithTime (env : PassEnv) (t : Time) :
    List (String × Time) × Option (List (String × Time)) :=
  let r := env.namespaces.foldl (nsStep env.nsFails t) ([], [])
  (r.1, if r.2.isEmpty then none else some r.2)

/-- Accumulator of the candidate-timestamp loop of `dbRepairer.Repair`:
the ledger, the pass-level multi-error, and the attempt trace. -/
structure PassAcc where
  ledger : Ledger
  errs : List (List (String × Time))
  attempts : List (String × Time)

/-- The ledger update of one iteration of the candidate loop (repair.go
lines 348-356): on success (`err == nil`) set status Success keeping
`NumFailures`; on failure set status Failed and increment `NumFailures`. -/
def applyOutcome (env : PassEnv) (t : Time) (old : RepairState) : RepairState :=
  match (repairWithTime env t).2 with
  | none => ⟨.success, old.numFailures⟩
  | some _ => ⟨.failed, old.numFailures + 1⟩

/-- One iteration of the candidate loop in `dbRepairer.Repair` (repair.go
lines 346-357): run `repairWithTime`, read the ledger entry (zero value if
absent), store the updated entry, and add the error, when there is one, to
the pass-level multi-error. -/
def passStep (env : PassEnv) (acc : PassAcc) (t : Time) : PassAcc :=
  let pr := repairWithTime env t
  { ledger := updateLedger acc.ledger t (applyOutcome env t (lookupOrZero acc.ledger t))
    errs := acc.errs ++ pr.2.toList
    attempts := acc.attempts ++ pr.1 }

/-- Mutable state of the `dbRepairer` relevant to `Repair()`: the
database's bootstrap flag, the atomic `running` flag, and the ledger. -/
structure DbState where
  bootstrapped : Bool
  running : Bool
  repairStates : Ledger

/-- Errors `dbRepairer.Repair` can return. -/
inductive DbRepairErr
  | repairInProgress
  | aggregate (errs : List (List (String × Time)))
deriving DecidableEq, Repr

/-- `dbRepairer.Repair` (repair.go lines 330-360), sequentialized: the
bootstrap check, then the compare-and-swap on `running`, then the
candidate loop, with the deferred store clearing `running` on return.
The third component is the trace of attempted `(namespace, time)` pairs. -/
def dbRepair (env : PassEnv) (st : DbState) :
    DbState × Option DbRepairErr × List (String × Time) :=
  if !st.bootstrapped then (st, none, [])
  else if st.running then (st, some .repairInProgress, [])
  else
    let times := repairTimes env.rt env.repairMaxRetries st.repairStates env.now
    let acc := times.foldl (passStep env) ⟨st.repairStates, [], []⟩
    ({ st with running := false, repairStates := acc.ledger },
      if acc.errs.isEmpty then none else some (.aggregate acc.errs),
      acc.attempts)

/-- `dbRepairer.IsRepairing` (repair.go lines 374-376). -/
def isRepairing (st : DbState) : Bool := st.running

/-- The accumulator produced by the candidate loop of one pass that starts
from ledger `l`. -/
def passResult (env : PassEnv) (l : Ledger) : PassAcc :=
  (repairTimes env.rt env.repairMaxRetries l env.now).foldl (passStep env) ⟨l, [], []⟩

/-! ### The run loop (`dbRepairer.run`) -/

/-- Scheduling configuration of the run loop. -/
structure RunCfg where
  repairInterval : Int
  repairTimeOffset : Int
  repairTimeJitter : Int
deriving DecidableEq, Repr

/-- One poll tick of `dbRepairer.run` (repair.go lines 269-286), given the
current `curIntervalStart` and the clock reading `now`: returns the new
`curIntervalStart` and, when the pass fires, the `(now, intervalStart)`
pair of the invocation. -/
def runStep (cfg : RunCfg) (cur : Time) (now : Time) :
    Time × Option (Time × Time) :=
  let intervalStart := truncate now cfg.repairInterval
  if now < intervalStart + cfg.repairTimeOffset + cfg.repairTimeJitter then
    (cur, none)
  else if intervalStart = cur then (cur, none)
  else (intervalStart, some (now, intervalStart))

/-- The run loop over a finite sequence of clock readings (one per poll
tick), collecting the pass invocations.  `cur` starts at the Go zero time
(`var curIntervalStart time.Time`), modelled as `0`. -/
def runLoop (cfg : RunCfg) (cur : Time) : List Time → List (Time × Time)
  | [] => []
  | now :: rest =>
    match runStep cfg cur now with
    | (cur2, none) => runLoop cfg cur2 rest
    | (cur2, some inv) => inv :: runLoop cfg cur2 rest

/-! ### Lemmas about `truncate` -/

lemma truncate_of_pos {x d : Int} (hd : 0 < d) : truncate x d = x - x % d := by
  have h := Int.ediv_add_emod x d
  simp only [truncate, if_neg (not_le.mpr hd)]
  linarith

lemma truncate_le {x d : Int} (hd : 0 < d) : truncate x d ≤ x := by
  have h1 := Int.emod_nonneg x (ne_of_gt hd)
  rw [truncate_of_pos hd]
  linarith

lemma sub_lt_truncate {x d : Int} (hd : 0 < d) : x - d < truncate x d := by
  have h2 := Int.emod_lt_of_pos x hd
  rw [truncate_of_pos hd]
  linarith

lemma truncate_dvd (x : Int) {d : Int} (hd : 0 < d) : d ∣ truncate x d := by
  simp only [truncate, if_neg (not_le.mpr hd)]
  exact dvd_mul_right d (x / d)

lemma truncate_mono {x y d : Int} (hd : 0 < d) (h : x ≤ y) :
    truncate x d ≤ truncate y d := by
  simp only [truncate, if_neg (not_le.mpr hd)]
  exact mul_le_mul_of_nonneg_left (Int.ediv_le_ediv hd h) hd.le

/-! ### Lemmas about `blockTimesDesc` and `repairTimes` -/

lemma mem_blockTimesDesc {s e b t : Int} (ht : t ∈ blockTimesDesc s e b) :
    s ≤ t ∧ t ≤ e ∧ b ∣ (e - t) := by
  unfold blockTimesDesc at ht
  split at ht
  · simp at ht
  · rename_i hcond
    push_neg at hcond
    have hb : 0 < b := hcond.1
    have hse : s ≤ e := hcond.2
    simp only [List.mem_map, List.mem_range] at ht
    obtain ⟨k, hk, rfl⟩ := ht
    have hkN : k ≤ (e - s).toNat / b.toNat := Nat.le_of_lt_succ hk
    have hnat : b.toNat * k ≤ (e - s).toNat :=
      le_trans (Nat.mul_le_mul_left _ hkN) (Nat.mul_div_le _ _)
    have hint : b * (k : Int) ≤ e - s := by
      have h2 := (Int.ofNat_le).mpr hnat
      push_cast at h2
      rwa [Int.toNat_of_nonneg hb.le, Int.toNat_of_nonneg (by linarith)] at h2
    have hk0 : 0 ≤ b * (k : Int) := mul_nonneg hb.le (Int.ofNat_nonneg k)
    refine ⟨by linarith, by linarith, ?_⟩
    have h3 : e - (e - b * (k : Int)) = b * k := by ring
    rw [h3]
    exact dvd_mul_right b k

lemma blockTimesDesc_pairwise (s e b : Int) :
    (blockTimesDesc s e b).Pairwise (· > ·) := by
  unfold blockTimesDesc
  split
  · simp
  · rename_i hcond
    push_neg at hcond
    have hb : 0 < b := hcond.1
    refine List.Pairwise.map (fun k : Nat => e - b * (k : Int)) ?_
      (List.pairwise_lt_range _)
    intro k1 k2 hlt
    have h4 : b * (k1 : Int) < b * (k2 : Int) := by
      apply mul_lt_mul_of_pos_left _ hb
      exact_mod_cast hlt
    simp only [gt_iff_lt]
    linarith

lemma repairTimes_pairwise (rt : RetentionOpts) (repairMaxRetries : Int)
    (l : Ledger) (now : Time) :
    (repairTimes rt repairMaxRetries l now).Pairwise (· > ·) :=
  List.Pairwise.sublist (List.filter_sublist _) (blockTimesDesc_pairwise _ _ _)

lemma repairTimes_nodup (rt : RetentionOpts) (repairMaxRetries : Int)
    (l : Ledger) (now : Time) :
    (repairTimes rt repairMaxRetries l now).Nodup :=
  (repairTimes_pairwise rt repairMaxRetries l now).imp (fun h => ne_of_gt h)

lemma mem_repairTimes {rt : RetentionOpts} {repairMaxRetries : Int} {l : Ledger}
    {now t : Time} (hb : 0 < rt.blockSize)
    (ht : t ∈ repairTimes rt repairMaxRetries l now) :
    rt.blockSize ∣ t ∧
    truncate (now - rt.retentionPeriod) rt.blockSize ≤ t ∧
    t ≤ truncate (now - rt.bufferPast - rt.blockSize) rt.blockSize := by
  unfold repairTimes at ht
  rw [List.mem_filter] at ht
  obtain ⟨hs, he, hdvd⟩ := mem_blockTimesDesc ht.1
  refine ⟨?_, hs, he⟩
  have hde : rt.blockSize ∣ truncate (now - rt.bufferPast - rt.blockSize) rt.blockSize :=
    truncate_dvd _ hb
  have := dvd_sub hde hdvd
  simpa using this

/-! ### Lemmas about the namespace loop (`repairWithTime`) -/

lemma nsFold_spec (fails : String → Time → Bool) (t : Time) :
    ∀ (ns : List String) (a e : List (String × Time)),
      ns.foldl (nsStep fails t) (a, e) =
        (a ++ ns.map (fun n => (n, t)),
         e ++ (ns.filter (fun n => fails n t)).map (fun n => (n, t))) := by
  intro ns
  induction ns with
  | nil => intro a e; simp
  | cons n rest ih =>
    intro a e
    simp only [List.foldl_cons, nsStep, List.filter_cons]
    by_cases h : fails n t
    · rw [if_pos h, ih]
      simp [h]
    · rw [if_neg h, ih]
      simp [h]

lemma repairWithTime_fst (env : PassEnv) (t : Time) :
    (repairWithTime env t).1 = env.namespaces.map (fun n => (n, t)) := by
  simp [repairWithTime, nsFold_spec]

lemma repairWithTime_snd_none_iff (env : PassEnv) (t : Time) :
    (repairWithTime env t).2 = none ↔ ∀ n ∈ env.namespaces, env.nsFails n t = false := by
  have h := nsFold_spec env.nsFails t env.namespaces [] []
  simp only [repairWithTime, h, List.nil_append]
  split
  · rename_i hi
    rw [List.isEmpty_iff, List.map_eq_nil_iff, List.filter_eq_nil_iff] at hi
    exact iff_of_true rfl (fun n hn => by simpa using hi n hn)
  · rename_i hi
    rw [Bool.not_eq_true, List.isEmpty_eq_false] at hi
    have hf : env.namespaces.filter (fun n => env.nsFails n t) ≠ [] :=
      fun hnil => hi (by rw [hnil]; rfl)
    refine iff_of_false (by simp) ?_
    rw [not_forall]
    rcases List.exists_mem_of_ne_nil _ hf with ⟨n, hn⟩
    rw [List.mem_filter] at hn
    exact ⟨n, by simp [hn.1, hn.2]⟩

/-! ### Lemmas about the candidate loop (`passStep` folds) -/

lemma applyOutcome_numFailures_le (env : PassEnv) (t : Time) (old : RepairState) :
    old.numFailures ≤ (applyOutcome env t old).numFailures := by
  unfold applyOutcome
  split <;> simp

lemma passStep_ledger_ne (env : PassEnv) (acc : PassAcc) {t u : Time} (h : u ≠ t) :
    (passStep env acc t).ledger u = acc.ledger u := by
  simp [passStep, updateLedger, h]

lemma passStep_ledger_self (env : PassEnv) (acc : PassAcc) (t : Time) :
    (passStep env acc t).ledger t =
      some (applyOutcome env t (lookupOrZero acc.ledger t)) := by
  simp [passStep, updateLedger]

lemma foldl_passStep_ledger_not_mem (env : PassEnv) :
    ∀ (ts : List Time) (acc : PassAcc) (t : Time), t ∉ ts →
      (ts.foldl (passStep env) acc).ledger t = acc.ledger t := by
  intro ts
  induction ts with
  | nil => intro acc t _; rfl
  | cons u rest ih =>
    intro acc t ht
    rw [List.mem_cons, not_or] at ht
    rw [List.foldl_cons, ih _ _ ht.2, passStep_ledger_ne env acc ht.1]

lemma foldl_passStep_ledger_mem (env : PassEnv) :
    ∀ (ts : List Time) (acc : PassAcc) (t : Time), ts.Nodup → t ∈ ts →
      (ts.foldl (passStep env) acc).ledger t =
        some (applyOutcome env t (lookupOrZero acc.ledger t)) := by
  intro ts
  induction ts with
  | nil => intro acc t _ ht; simp at ht
  | cons u rest ih =>
    intro acc t hnd ht
    rw [List.nodup_cons] at hnd
    rw [List.foldl_cons]
    rcases List.mem_cons.mp ht with rfl | hmem
    · rw [foldl_passStep_ledger_not_mem env rest _ t hnd.1,
        passStep_ledger_self]
    · have hne : t ≠ u := fun he => hnd.1 (he ▸ hmem)
      rw [ih _ t hnd.2 hmem]
      congr 2
      simp [lookupOrZero, passStep_ledger_ne env acc hne]

lemma lookupOrZero_numFailures_le_of_ledger (l1 l2 : Ledger) (t : Time)
    (h : l1 t = l2 t) :
    (lookupOrZero l1 t).numFailures ≤ (lookupOrZero l2 t).numFailures := by
  simp [lookupOrZero, h]

lemma passStep_numFailures_le (env : PassEnv) (acc : PassAcc) (t u : Time) :
    (lookupOrZero acc.ledger u).numFailures ≤
      (lookupOrZero (passStep env acc t).ledger u).numFailures := by
  by_cases h : u = t
  · subst h
    simp only [lookupOrZero, passStep_ledger_self, Option.getD_some]
    exact applyOutcome_numFailures_le env u _
  · simp only [lookupOrZero, passStep_ledger_ne env acc h, le_refl]

lemma foldl_passStep_numFailures_le (env : PassEnv) :
    ∀ (ts : List Time) (acc : PassAcc) (u : Time),
      (lookupOrZero acc.ledger u).numFailures ≤
        (lookupOrZero (ts.foldl (passStep env) acc).ledger u).numFailures := by
  intro ts
  induction ts with
  | nil => intro acc u; exact le_refl _
  | cons t rest ih =>
    intro acc u
    rw [List.foldl_cons]
    exact le_trans (passStep_numFailures_le env acc t u) (ih _ u)

lemma foldl_passStep_errs (env : PassEnv) :
    ∀ (ts : List Time) (acc : PassAcc),
      (ts.foldl (passStep env) acc).errs =
        acc.errs ++ ts.filterMap (fun t => (repairWithTime env t).2) := by
  intro ts
  induction ts with
  | nil => intro acc; simp
  | cons t rest ih =>
    intro acc
    rw [List.foldl_cons, List.filterMap_cons, ih]
    cases h : (repairWithTime env t).2 <;> simp [passStep, h]

lemma foldl_passStep_attempts (env : PassEnv) :
    ∀ (ts : List Time) (acc : PassAcc),
      (ts.foldl (passStep env) acc).attempts =
        acc.attempts ++ ts.flatMap (fun t => env.namespaces.map (fun n => (n, t))) := by
  intro ts
  induction ts with
  | nil => intro acc; simp
  | cons t rest ih =>
    intro acc
    rw [List.foldl_cons, List.flatMap_cons, ih]
    simp [passStep, repairWithTime_fst]

/-! ### Lemmas about `dbRepair` -/

lemma dbRepair_state (env : PassEnv) (st : DbState) (hb : st.bootstrapped = true)
    (hr : st.running = false) :
    (dbRepair env st).1 =
      { st with running := false,
                repairStates := (passResult env st.repairStates).ledger } := by
  simp [dbRepair, passResult, hb, hr]

lemma dbRepair_err (env : PassEnv) (st : DbState) (hb : st.bootstrapped = true)
    (hr : st.running = false) :
    (dbRepair env st).2.1 =
      if (passResult env st.repairStates).errs.isEmpty then none
      else some (.aggregate (passResult env st.repairStates).errs) := by
  simp [dbRepair, passResult, hb, hr]

lemma dbRepair_trace (env : PassEnv) (st : DbState) (hb : st.bootstrapped = true)
    (hr : st.running = false) :
    (dbRepair env st).2.2 = (passResult env st.repairStates).attempts := by
  simp [dbRepair, passResult, hb, hr]

lemma pass_errs_none_iff (env : PassEnv) (times : List Time) :
    times.filterMap (fun t => (repairWithTime env t).2) = [] ↔
      ∀ t ∈ times, ∀ n ∈ env.namespaces, env.nsFails n t = false := by
  rw [List.filterMap_eq_nil_iff]
  constructor
  · intro h t ht
    exact (repairWithTime_snd_none_iff env t).mp (h t ht)
  · intro h t ht
    exact (repairWithTime_snd_none_iff env t).mpr (h t ht)

lemma forall_mem_flatMap_pairs (ns : List String) (times : List Time)
    (f : String → Time → Bool) :
    (∀ p ∈ times.flatMap (fun t => ns.map (fun n => (n, t))), f p.1 p.2 = false) ↔
      ∀ t ∈ times, ∀ n ∈ ns, f n t = false := by
  constructor
  · intro h t ht n hn
    exact h (n, t) (List.mem_flatMap.mpr ⟨t, ht, List.mem_map.mpr ⟨n, hn, rfl⟩⟩)
  · intro h p hp
    rcases List.mem_flatMap.mp hp with ⟨t, ht, hpm⟩
    rcases List.mem_map.mp hpm with ⟨n, hn, rfl⟩
    exact h t ht n hn

/-! ### Claim C1 -/

/-- Claim C1 is false on the code: the source discards the local metadata
fetch error (`localMetadata, _ := shard.FetchBlocksMetadata(...)`), so
with a failing local fetch and everything else succeeding, `Repair`
returns no error, produces a comparison result, and invokes the recording
function. -/
theorem c1_shardRepair_counterexample :
    (ShardEnv.mk false true false false ⟨1, 2, 3, 4, 5, 6⟩).localFetchErr = true ∧
    (shardRepair ⟨false, true, false, false, ⟨1, 2, 3, 4, 5, 6⟩⟩).error = none ∧
    (shardRepair ⟨false, true, false, false, ⟨1, 2, 3, 4, 5, 6⟩⟩).recorded = true := by
  decide

/-- Claim C1 (amended): if the admin-session acquisition or the peer
metadata fetch (or adding the peer metadata to the comparer) returns an
error, `Repair` returns an error and the empty comparison result and the
recording function is not invoked; an error from the local metadata fetch
is discarded and does not abort: the comparison proceeds, its result is
recorded and returned with no error. -/
theorem c1_shardRepair_amended (env : ShardEnv) :
    (env.sessionErr = true →
      shardRepair env = ⟨.empty, some .sessionUnavailable, false⟩) ∧
    (env.sessionErr = false → env.peerFetchErr = true →
      shardRepair env = ⟨.empty, some .peerFetchFailed, false⟩) ∧
    (env.sessionErr = false → env.peerFetchErr = false → env.addPeerErr = true →
      shardRepair env = ⟨.empty, some .addPeerFailed, false⟩) ∧
    (env.sessionErr = false → env.peerFetchErr = false → env.addPeerErr = false →
      shardRepair env = ⟨env.compareResult, none, true⟩) :=
  ⟨fun h1 => by simp [shardRepair, h1],
   fun h1 h2 => by simp [shardRepair, h1, h2],
   fun h1 h2 h3 => by simp [shardRepair, h1, h2, h3],
   fun h1 h2 h3 => by simp [shardRepair, h1, h2, h3]⟩

/-- Witness for the amended C1 at concrete environments. -/
theorem c1_shardRepair_witness :
    shardRepair ⟨true, false, false, false, .empty⟩
      = ⟨.empty, some .sessionUnavailable, false⟩ ∧
    shardRepair ⟨false, false, true, false, .empty⟩
      = ⟨.empty, some .peerFetchFailed, false⟩ :=
  ⟨(c1_shardRepair_amended _).1 rfl, (c1_shardRepair_amended _).2.1 rfl rfl⟩

/-! ### Claim C2 -/

/-- Claim C2 is false on the code: with now = 100, blockSize = 3,
retentionPeriod = 11, bufferPast = 0 and an empty ledger, `repairTimes`
returns 87, which is not strictly greater than now − retentionPeriod = 89,
so the returned timestamps do not all lie strictly between
now − retentionPeriod and now − bufferPast − blockSize. -/
theorem c2_repairTimes_counterexample :
    (87 : Int) ∈ repairTimes ⟨3, 11, 0⟩ 1 (fun _ => none) 100 ∧
    ¬((100 : Int) - 11 < 87) := by decide

/-- Claim C2 (amended): for a positive block size, `repairTimes` returns
only block-aligned timestamps t with
truncate(now − retentionPeriod) ≤ t ≤ truncate(now − bufferPast − blockSize),
hence now − retentionPeriod − blockSize < t ≤ now − bufferPast − blockSize,
in strictly descending order with no duplicates. -/
theorem c2_repairTimes_amended (rt : RetentionOpts) (repairMaxRetries : Int)
    (l : Ledger) (now : Time) (hb : 0 < rt.blockSize) :
    (∀ t ∈ repairTimes rt repairMaxRetries l now,
      rt.blockSize ∣ t ∧
      truncate (now - rt.retentionPeriod) rt.blockSize ≤ t ∧
      t ≤ truncate (now - rt.bufferPast - rt.blockSize) rt.blockSize ∧
      now - rt.retentionPeriod - rt.blockSize < t ∧
      t ≤ now - rt.bufferPast - rt.blockSize) ∧
    (repairTimes rt repairMaxRetries l now).Pairwise (· > ·) ∧
    (repairTimes rt repairMaxRetries l now).Nodup := by
  refine ⟨fun t ht => ?_, repairTimes_pairwise _ _ _ _, repairTimes_nodup _ _ _ _⟩
  obtain ⟨hdvd, hlow, hhigh⟩ := mem_repairTimes hb ht
  refine ⟨hdvd, hlow, hhigh, ?_, ?_⟩
  · have h1 := sub_lt_truncate (x := now - rt.retentionPeriod) hb
    linarith
  · have h2 := truncate_le (x := now - rt.bufferPast - rt.blockSize) hb
    linarith

/-- Witness for the amended C2, at the counterexample's input and its
returned timestamp 87. -/
theorem c2_repairTimes_witness :
    (3 : Int) ∣ 87 ∧
    truncate ((100 : Int) - 11) 3 ≤ 87 ∧
    (87 : Int) ≤ truncate ((100 : Int) - 0 - 3) 3 ∧
    (100 : Int) - 11 - 3 < 87 ∧
    (87 : Int) ≤ 100 - 0 - 3 :=
  (c2_repairTimes_amended ⟨3, 11, 0⟩ 1 (fun _ => none) 100 (by decide)).1 87
    (by decide)

/-! ### Claim C3 -/

/-- Claim C3: `needsRepair(t)` is true when t has no ledger entry; true
when the entry has status Failed with fewer than `repairMaxRetries`
failures and false once the failure count reaches `repairMaxRetries`; and
false when the entry has status Success, regardless of failure count. -/
theorem c3_needsRepair (repairMaxRetries : Int) (l : Ledger) (t : Time) :
    (l t = none → needsRepair repairMaxRetries l t = true) ∧
    (∀ s : RepairState, l t = some s → s.status = .failed →
      (s.numFailures < repairMaxRetries →
        needsRepair repairMaxRetries l t = true) ∧
      (repairMaxRetries ≤ s.numFailures →
        needsRepair repairMaxRetries l t = false)) ∧
    (∀ s : RepairState, l t = some s → s.status = .success →
      needsRepair repairMaxRetries l t = false) := by
  refine ⟨fun h => by simp [needsRepair, h],
    fun s hs hf => ⟨fun hlt => ?_, fun hge => ?_⟩,
    fun s hs hsc => by simp [needsRepair, hs, hsc]⟩
  · simp [needsRepair, hs, hf, hlt]
  · simp [needsRepair, hs, hf, not_lt.mpr hge]

/-- Witness for C3: a missing entry, a Failed entry below and at the retry
limit, and a Success entry with a large failure count. -/
theorem c3_needsRepair_witness :
    needsRepair 3 (fun u => if u = 5 then some ⟨.failed, 1⟩ else none) 7 = true ∧
    needsRepair 3 (fun u => if u = 5 then some ⟨.failed, 1⟩ else none) 5 = true ∧
    needsRepair 3 (fun u => if u = 5 then some ⟨.failed, 3⟩ else none) 5 = false ∧
    needsRepair 3 (fun u => if u = 5 then some ⟨.success, 9⟩ else none) 5 = false :=
  ⟨(c3_needsRepair 3 _ 7).1 (by decide),
   ((c3_needsRepair 3 _ 5).2.1 ⟨.failed, 1⟩ (by decide) rfl).1 (by decide),
   ((c3_needsRepair 3 _ 5).2.1 ⟨.failed, 3⟩ (by decide) rfl).2 (by decide),
   (c3_needsRepair 3 _ 5).2.2 ⟨.success, 9⟩ (by decide) rfl⟩

/-! ### Claim C4 -/

/-- Claim C4: within a pass, a candidate timestamp whose attempt succeeds
gets ledger status Success (keeping its failure count); one whose attempt
fails gets status Failed with `numFailures` incremented by exactly one;
and no ledger entry's `numFailures` ever decreases across the pass. -/
theorem c4_ledger_update (env : PassEnv) (st : DbState)
    (hb : st.bootstrapped = true) (hr : st.running = false) :
    (∀ t ∈ repairTimes env.rt env.repairMaxRetries st.repairStates env.now,
      ((repairWithTime env t).2 = none →
        (dbRepair env st).1.repairStates t =
          some ⟨.success, (lookupOrZero st.repairStates t).numFailures⟩) ∧
      (∀ es, (repairWithTime env t).2 = some es →
        (dbRepair env st).1.repairStates t =
          some ⟨.failed, (lookupOrZero st.repairStates t).numFailures + 1⟩)) ∧
    (∀ u : Time,
      (lookupOrZero st.repairStates u).numFailures ≤
        (lookupOrZero (dbRepair env st).1.repairStates u).numFailures) := by
  have hst := dbRepair_state env st hb hr
  constructor
  · intro t ht
    have hmem := foldl_passStep_ledger_mem env
      (repairTimes env.rt env.repairMaxRetries st.repairStates env.now)
      ⟨st.repairStates, [], []⟩ t (repairTimes_nodup _ _ _ _) ht
    constructor
    · intro hnone
      rw [hst]
      show (passResult env st.repairStates).ledger t = _
      rw [passResult, hmem]
      simp [applyOutcome, hnone]
    · intro es hsome
      rw [hst]
      show (passResult env st.repairStates).ledger t = _
      rw [passResult, hmem]
      simp [applyOutcome, hsome]
  · intro u
    rw [hst]
    show _ ≤ (lookupOrZero (passResult env st.repairStates).ledger u).numFailures
    rw [passResult]
    exact foldl_passStep_numFailures_le env _ _ u

/-- Witness for C4: one namespace failing exactly at timestamp 96; the
pass marks 96 Failed with one failure and 93 Success with none. -/
theorem c4_ledger_update_witness :
    (dbRepair ⟨["a"], fun _ u => decide (u = 96), ⟨3, 11, 0⟩, 2, 100⟩
        ⟨true, false, fun _ => none⟩).1.repairStates 96 = some ⟨.failed, 1⟩ ∧
    (dbRepair ⟨["a"], fun _ u => decide (u = 96), ⟨3, 11, 0⟩, 2, 100⟩
        ⟨true, false, fun _ => none⟩).1.repairStates 93 = some ⟨.success, 0⟩ :=
  ⟨((c4_ledger_update ⟨["a"], fun _ u => decide (u = 96), ⟨3, 11, 0⟩, 2, 100⟩
      ⟨true, false, fun _ => none⟩ rfl rfl).1 96 (by decide)).2
      [("a", 96)] (by decide),
   ((c4_ledger_update ⟨["a"], fun _ u => decide (u = 96), ⟨3, 11, 0⟩, 2, 100⟩
      ⟨true, false, fun _ => none⟩ rfl rfl).1 93 (by decide)).1 (by decide)⟩

/-! ### Claim C5 -/

/-- Claim C5: a pass attempts every candidate timestamp and, at each one,
every owned namespace — the attempt trace is exactly the full product,
independent of which attempts fail — and the returned aggregate error is
nil exactly when no attempt failed. -/
theorem c5_pass_attempts (env : PassEnv) (st : DbState)
    (hb : st.bootstrapped = true) (hr : st.running = false) :
    (dbRepair env st).2.2 =
      (repairTimes env.rt env.repairMaxRetries st.repairStates env.now).flatMap
        (fun t => env.namespaces.map (fun n => (n, t))) ∧
    ((dbRepair env st).2.1 = none ↔
      ∀ p ∈ (dbRepair env st).2.2, env.nsFails p.1 p.2 = false) := by
  have htr : (dbRepair env st).2.2 =
      (repairTimes env.rt env.repairMaxRetries st.repairStates env.now).flatMap
        (fun t => env.namespaces.map (fun n => (n, t))) := by
    rw [dbRepair_trace env st hb hr, passResult, foldl_passStep_attempts]
    simp
  refine ⟨htr, ?_⟩
  rw [htr, dbRepair_err env st hb hr, passResult, foldl_passStep_errs,
    List.nil_append, forall_mem_flatMap_pairs]
  by_cases hemp :
      ((repairTimes env.rt env.repairMaxRetries st.repairStates env.now).filterMap
        (fun t => (repairWithTime env t).2)).isEmpty
  · refine iff_of_true (by simp [hemp]) ?_
    exact (pass_errs_none_iff env _).mp (List.isEmpty_iff.mp hemp)
  · rw [Bool.not_eq_true] at hemp
    refine iff_of_false (by simp [hemp]) ?_
    intro hall
    have hnil := (pass_errs_none_iff env _).mpr hall
    rw [hnil] at hemp
    simp at hemp

/-- Witness for C5: with one namespace failing at timestamp 96, the trace
is the full product of candidates and namespaces and the aggregate error
is not nil. -/
theorem c5_pass_attempts_witness :
    (dbRepair ⟨["a"], fun _ u => decide (u = 96), ⟨3, 11, 0⟩, 2, 100⟩
        ⟨true, false, fun _ => none⟩).2.2 =
      [("a", 96), ("a", 93), ("a", 90), ("a", 87)] ∧
    ¬((dbRepair ⟨["a"], fun _ u => decide (u = 96), ⟨3, 11, 0⟩, 2, 100⟩
        ⟨true, false, fun _ => none⟩).2.1 = none) := by
  have h := c5_pass_attempts ⟨["a"], fun _ u => decide (u = 96), ⟨3, 11, 0⟩, 2, 100⟩
    ⟨true, false, fun _ => none⟩ rfl rfl
  refine ⟨by rw [h.1]; decide, fun hnone => ?_⟩
  have hall := h.2.mp hnone
  have h96 := hall ("a", 96) (by rw [h.1]; decide)
  simp at h96

/-! ### Claim C6 -/

/-- Claim C6: on a bootstrapped database, calling Repair while the running
flag is set returns RepairInProgress with the state (ledger and flag)
unmodified and no attempt made; a call while the flag is clear never
returns RepairInProgress. -/
theorem c6_repair_in_progress (env : PassEnv) (st : DbState)
    (hb : st.bootstrapped = true) :
    (st.running = true → dbRepair env st = (st, some .repairInProgress, [])) ∧
    (st.running = false → (dbRepair env st).2.1 ≠ some .repairInProgress) := by
  constructor
  · intro hr
    simp [dbRepair, hb, hr]
  · intro hr
    rw [dbRepair_err env st hb hr]
    split <;> simp

/-- Witness for C6 at a concrete environment and states. -/
theorem c6_repair_in_progress_witness :
    dbRepair ⟨[], fun _ _ => false, ⟨1, 1, 0⟩, 1, 0⟩ ⟨true, true, fun _ => none⟩ =
      (⟨true, true, fun _ => none⟩, some .repairInProgress, []) ∧
    (dbRepair ⟨[], fun _ _ => false, ⟨1, 1, 0⟩, 1, 0⟩
      ⟨true, false, fun _ => none⟩).2.1 ≠ some .repairInProgress :=
  ⟨(c6_repair_in_progress ⟨[], fun _ _ => false, ⟨1, 1, 0⟩, 1, 0⟩
      ⟨true, true, fun _ => none⟩ rfl).1 rfl,
   (c6_repair_in_progress ⟨[], fun _ _ => false, ⟨1, 1, 0⟩, 1, 0⟩
      ⟨true, false, fun _ => none⟩ rfl).2 rfl⟩

/-! ### Claim C7 -/

/-- Claim C7: whenever Repair acquires the gate and runs a pass, the
running flag is cleared on return — IsRepairing is false immediately
after, even when the pass returned an aggregate error. -/
theorem c7_running_cleared (env : PassEnv) (st : DbState)
    (hb : st.bootstrapped = true) (hr : st.running = false) :
    isRepairing (dbRepair env st).1 = false := by
  rw [dbRepair_state env st hb hr]
  rfl

/-- Witness for C7: a run whose pass fails at every candidate still leaves
IsRepairing false. -/
theorem c7_running_cleared_witness :
    isRepairing (dbRepair ⟨["a"], fun _ _ => true, ⟨3, 11, 0⟩, 2, 100⟩
      ⟨true, false, fun _ => none⟩).1 = false :=
  c7_running_cleared ⟨["a"], fun _ _ => true, ⟨3, 11, 0⟩, 2, 100⟩
    ⟨true, false, fun _ => none⟩ rfl rfl

/-! ### Claim C8 -/

/-- Claim C8: when the database is not bootstrapped, Repair returns nil,
attempts nothing, and leaves the whole state (ledger included)
unchanged. -/
theorem c8_not_bootstrapped (env : PassEnv) (st : DbState)
    (hb : st.bootstrapped = false) :
    dbRepair env st = (st, none, []) := by
  simp [dbRepair, hb]

/-- Witness for C8 at a concrete environment and state. -/
theorem c8_not_bootstrapped_witness :
    dbRepair ⟨["a"], fun _ _ => true, ⟨3, 11, 0⟩, 2, 100⟩
        ⟨false, false, fun _ => none⟩ =
      (⟨false, false, fun _ => none⟩, none, []) :=
  c8_not_bootstrapped ⟨["a"], fun _ _ => true, ⟨3, 11, 0⟩, 2, 100⟩
    ⟨false, false, fun _ => none⟩ rfl

/-! ### Lemmas about the run loop, then Claim C9 -/

lemma runLoop_inv_spec (cfg : RunCfg) :
    ∀ (ticks : List Time) (cur : Time), ∀ inv ∈ runLoop cfg cur ticks,
      inv.2 = truncate inv.1 cfg.repairInterval ∧
      inv.2 + cfg.repairTimeOffset + cfg.repairTimeJitter ≤ inv.1 := by
  intro ticks
  induction ticks with
  | nil =>
    intro cur inv h
    simp [runLoop] at h
  | cons now rest ih =>
    intro cur inv h
    simp only [runLoop, runStep] at h
    by_cases h1 : now < truncate now cfg.repairInterval + cfg.repairTimeOffset +
        cfg.repairTimeJitter
    · rw [if_pos h1] at h
      exact ih cur inv h
    · rw [if_neg h1] at h
      by_cases h2 : truncate now cfg.repairInterval = cur
      · rw [if_pos h2] at h
        exact ih cur inv h
      · rw [if_neg h2] at h
        rcases List.mem_cons.mp h with rfl | hmem
        · exact ⟨rfl, le_of_not_lt h1⟩
        · exact ih _ inv hmem

lemma runLoop_snd_lt_of_lb (cfg : RunCfg) (hI : 0 < cfg.repairInterval) :
    ∀ (ticks : List Time) (cur : Time), ticks.Pairwise (· ≤ ·) →
      (∀ tk ∈ ticks, cur ≤ truncate tk cfg.repairInterval) →
      ∀ inv ∈ runLoop cfg cur ticks, cur < inv.2 := by
  intro ticks
  induction ticks with
  | nil =>
    intro cur _ _ inv h
    simp [runLoop] at h
  | cons now rest ih =>
    intro cur hmono hlb inv h
    rw [List.pairwise_cons] at hmono
    simp only [runLoop, runStep] at h
    by_cases h1 : now < truncate now cfg.repairInterval + cfg.repairTimeOffset +
        cfg.repairTimeJitter
    · rw [if_pos h1] at h
      exact ih cur hmono.2 (fun tk htk => hlb tk (List.mem_cons_of_mem _ htk)) inv h
    · rw [if_neg h1] at h
      by_cases h2 : truncate now cfg.repairInterval = cur
      · rw [if_pos h2] at h
        exact ih cur hmono.2 (fun tk htk => hlb tk (List.mem_cons_of_mem _ htk)) inv h
      · rw [if_neg h2] at h
        have hcur : cur ≤ truncate now cfg.repairInterval :=
          hlb now (List.mem_cons_self _ _)
        rcases List.mem_cons.mp h with rfl | hmem
        · exact lt_of_le_of_ne hcur (fun he => h2 he.symm)
        · have hrest : ∀ tk ∈ rest,
              truncate now cfg.repairInterval ≤ truncate tk cfg.repairInterval :=
            fun tk htk => truncate_mono hI (hmono.1 tk htk)
          exact lt_of_le_of_lt hcur (ih _ hmono.2 hrest inv hmem)

lemma runLoop_snd_pairwise (cfg : RunCfg) (hI : 0 < cfg.repairInterval) :
    ∀ (ticks : List Time) (cur : Time), ticks.Pairwise (· ≤ ·) →
      ((runLoop cfg cur ticks).map Prod.snd).Pairwise (· < ·) := by
  intro ticks
  induction ticks with
  | nil =>
    intro cur _
    simp [runLoop]
  | cons now rest ih =>
    intro cur hmono
    rw [List.pairwise_cons] at hmono
    simp only [runLoop, runStep]
    by_cases h1 : now < truncate now cfg.repairInterval + cfg.repairTimeOffset +
        cfg.repairTimeJitter
    · rw [if_pos h1]
      exact ih cur hmono.2
    · rw [if_neg h1]
      by_cases h2 : truncate now cfg.repairInterval = cur
      · rw [if_pos h2]
        exact ih cur hmono.2
      · rw [if_neg h2]
        rw [List.map_cons, List.pairwise_cons]
        have hrest : ∀ tk ∈ rest,
            truncate now cfg.repairInterval ≤ truncate tk cfg.repairInterval :=
          fun tk htk => truncate_mono hI (hmono.1 tk htk)
        refine ⟨?_, ih _ hmono.2⟩
        intro y hy
        rcases List.mem_map.mp hy with ⟨inv, hinv, rfl⟩
        exact runLoop_snd_lt_of_lb cfg hI rest _ hmono.2 hrest inv hinv

/-- Claim C9: over any monotone sequence of poll-tick clock readings, with
a positive repair interval, the run loop fires a pass only at a tick whose
time is at or after intervalStart + repairTimeOffset + repairTimeJitter,
and never fires twice for the same intervalStart. -/
theorem c9_run_loop (cfg : RunCfg) (ticks : List Time)
    (hI : 0 < cfg.repairInterval) (hmono : ticks.Pairwise (· ≤ ·)) :
    (∀ inv ∈ runLoop cfg 0 ticks,
      inv.2 = truncate inv.1 cfg.repairInterval ∧
      inv.2 + cfg.repairTimeOffset + cfg.repairTimeJitter ≤ inv.1) ∧
    ((runLoop cfg 0 ticks).map Prod.snd).Nodup :=
  ⟨runLoop_inv_spec cfg ticks 0,
   (runLoop_snd_pairwise cfg hI ticks 0 hmono).imp fun h => ne_of_lt h⟩

/-- Witness for C9: interval 10, offset 2, no jitter, ticks 1, 3, 12, 13,
25; the pass for intervalStart 10 fires at tick 12 and each intervalStart
fires at most once. -/
theorem c9_run_loop_witness :
    ((12, 10) : Time × Time).2 = truncate ((12, 10) : Time × Time).1
        (RunCfg.mk 10 2 0).repairInterval ∧
    ((12, 10) : Time × Time).2 + (RunCfg.mk 10 2 0).repairTimeOffset +
        (RunCfg.mk 10 2 0).repairTimeJitter ≤ ((12, 10) : Time × Time).1 ∧
    ((runLoop ⟨10, 2, 0⟩ 0 [1, 3, 12, 13, 25]).map Prod.snd).Nodup := by
  have h := c9_run_loop ⟨10, 2, 0⟩ [1, 3, 12, 13, 25] (by decide) (by decide)
  have h12 := h.1 (12, 10) (by decide)
  exact ⟨h12.1, h12.2, h.2⟩

/-! ### Claim C10 -/

/-- Claim C10: the bootstrap check precedes the compare-and-swap, so a
Repair call on a non-bootstrapped database returns nil for either value of
the running flag — never RepairInProgress — and leaves the state,
running flag included, unchanged. -/
theorem c10_bootstrap_precedes_gate (env : PassEnv) (l : Ledger) (running : Bool) :
    dbRepair env ⟨false, running, l⟩ = (⟨false, running, l⟩, none, []) := by
  simp [dbRepair]

end M3Repair
